import Mathlib

/-!
Verification of the QOI (Quite-OK-Image) codec in `src/lib.rs`.

The definitions below are a shallow embedding of the Rust source:
`u8` values are `Nat` with explicit `% 256` wherever `Wrapping` arithmetic
occurs in the source, byte buffers are `List Nat`, fixed arrays are
`List`s of the right length, and fallible code (`Option`, `assert!`,
`split_first`, `get`) becomes `Option`.
-/

namespace Qoi

/-- An RGBA pixel; each channel is an unsigned 8-bit value (`u8` in the
source), embedded as `Nat`. Mirrors `struct Pixel` in `src/lib.rs`. -/
structure Pixel where
  r : Nat
  g : Nat
  b : Nat
  a : Nat
deriving DecidableEq, Repr

/-- Wrapping 8-bit addition: `Wrapping::<u8>` `+` from the source. -/
def wadd (x y : Nat) : Nat := (x + y) % 256

/-- Wrapping 8-bit subtraction: `Wrapping::<u8>` `-` from the source.
For `y < 256` this is `(x - y) mod 256`. -/
def wsub (x y : Nat) : Nat := (x + 256 - y % 256) % 256

/-- Wrapping 8-bit multiplication: `Wrapping::<u8>` `*` from the source. -/
def wmul (x y : Nat) : Nat := (x * y) % 256

/-- Rust `Pixel::hash`: `(r*3 + g*5 + b*7 + a*11) % 64`, every `*` and `+`
performed with wrapping 8-bit arithmetic, exactly as in the source. -/
def Pixel.hash (p : Pixel) : Nat :=
  (wadd (wadd (wadd (wmul p.r 3) (wmul p.g 5)) (wmul p.b 7)) (wmul p.a 11)) % 64

/-- The six-variant operator, `enum QoiOp` in the source. -/
inductive QoiOp where
  | RGB (r g b : Nat)
  | RGBA (r g b a : Nat)
  | Index (idx : Nat)
  | Diff (dr dg db : Nat)
  | Luma (dg dr_dg db_dg : Nat)
  | Run (len : Nat)
deriving DecidableEq, Repr

/-- Rust `QoiOp::append_bytes`: the bytes one operator appends to the output
buffer. The source's `assert!` statements (which panic when violated)
are embedded as `Option`: `none` models the panic. Bit expressions
(`<<`, `|`) are kept literally. -/
def QoiOp.append_bytes : QoiOp → Option (List Nat)
  | .RGB r g b => some [0b11111110, r, g, b]
  | .RGBA r g b a => some [0b11111111, r, g, b, a]
  | .Index idx =>
      if idx ≤ 62 then some [(0b00 <<< 6) ||| idx] else none
  | .Diff dr dg db =>
      if dr ≤ 3 ∧ dg ≤ 3 ∧ db ≤ 3 then
        some [(0b01 <<< 6) ||| (dr <<< 4) ||| (dg <<< 2) ||| (db <<< 0)]
      else none
  | .Luma dg dr_dg db_dg =>
      if dg < 64 ∧ dr_dg < 16 ∧ db_dg < 16 then
        some [(0b10 <<< 6) ||| dg, (dr_dg <<< 4) ||| db_dg]
      else none
  | .Run len =>
      if len ≤ 62 then some [(0b11 <<< 6) ||| (len - 1)] else none

/-- Rust `QoiOp::from_bytes`: parse one operator from the front of a byte
slice, returning the operator and the remaining bytes, or `none` when a
required byte is missing. The source matches on
`(head >> 6, head & 0b00111111)`; the arms are translated in the same
order (the two 8-bit tags `0xFE`/`0xFF` take precedence over `Run`). -/
def QoiOp.from_bytes : List Nat → Option (QoiOp × List Nat)
  | [] => none
  | head :: rest =>
    let tag := head >>> 6
    let low := head &&& 0b00111111
    if tag = 0b11 ∧ low = 0b111110 then
      match rest with
      | r :: g :: b :: rest => some (.RGB r g b, rest)
      | _ => none
    else if tag = 0b11 ∧ low = 0b111111 then
      match rest with
      | r :: g :: b :: a :: rest => some (.RGBA r g b a, rest)
      | _ => none
    else if tag = 0b00 then
      some (.Index low, rest)
    else if tag = 0b01 then
      some (.Diff ((low >>> 4) &&& 0b11) ((low >>> 2) &&& 0b11) ((low >>> 0) &&& 0b11), rest)
    else if tag = 0b10 then
      match rest with
      | next :: rest => some (.Luma low ((next >>> 4) &&& 0b1111) ((next >>> 0) &&& 0b1111), rest)
      | _ => none
    else if tag = 0b11 then
      some (.Run (low + 1), rest)
    else
      none

/-- A decoded image: `struct Image` in the source (width, height, and a
row-major pixel vector). -/
structure Image where
  width : Nat
  height : Nat
  pixels : List Pixel
deriving DecidableEq, Repr

/-- The initial predictor pixel `(0, 0, 0, 255)`. -/
def initPixel : Pixel := ⟨0, 0, 0, 255⟩

/-- Rust `struct Encoder`: header fields plus the predictor state
(`cache: [Pixel; 64]`, `prev: Pixel`). -/
structure Encoder where
  width : Nat
  height : Nat
  channels : Nat
  colorspace : Nat
  cache : List Pixel
  prev : Pixel
deriving DecidableEq, Repr

/-- Rust `Encoder::new`: channels 4, colorspace 0, cache all `(0,0,0,255)`,
prev `(0,0,0,255)`. -/
def Encoder.new (width height : Nat) : Encoder :=
  ⟨width, height, 4, 0, List.replicate 64 initPixel, initPixel⟩

/-- Big-endian bytes of a `u32` (`u32::to_be_bytes`). -/
def be32 (w : Nat) : List Nat :=
  [w / 16777216 % 256, w / 65536 % 256, w / 256 % 256, w % 256]

/-- Rust `u32::from_be_bytes` on a 4-byte chunk. -/
def from_be32 : List Nat → Nat
  | [b0, b1, b2, b3] => b0 * 16777216 + b1 * 65536 + b2 * 256 + b3
  | _ => 0

/-- Rust `Encoder::append_header`: magic `qoif`, big-endian width and height,
channels byte, colorspace byte. -/
def Encoder.append_header (e : Encoder) : List Nat :=
  [0x71, 0x6F, 0x69, 0x66] ++ be32 e.width ++ be32 e.height ++ [e.channels, e.colorspace]

/-- The per-pixel operator selection from the body of `Encoder::encode`
(the code after the run handling, lines 179-213 of the source): Index if
the cache entry at the pixel's hash equals the pixel, else Diff, else
Luma, else RGB when alpha is unchanged, else RGBA. -/
def chooseOp (cache : List Pixel) (prev pixel : Pixel) : QoiOp :=
  let h := pixel.hash
  if cache.getD h initPixel = pixel then
    .Index h
  else
    let dr := wadd (wsub pixel.r prev.r) 2
    let dg := wadd (wsub pixel.g prev.g) 2
    let db := wadd (wsub pixel.b prev.b) 2
    let da := wsub pixel.a prev.a
    if da = 0 ∧ dr ≤ 3 ∧ dg ≤ 3 ∧ db ≤ 3 then
      .Diff dr dg db
    else
      let dg2 := wsub pixel.g prev.g
      let dr2 := wsub pixel.r prev.r
      let db2 := wsub pixel.b prev.b
      let dr_dg := wsub (wadd 8 dr2) dg2
      let db_dg := wsub (wadd 8 db2) dg2
      let dgL := wadd 32 dg2
      if da = 0 ∧ dgL < 64 ∧ dr_dg < 16 ∧ db_dg < 16 then
        .Luma dgL dr_dg db_dg
      else if da = 0 then
        .RGB pixel.r pixel.g pixel.b
      else
        .RGBA pixel.r pixel.g pixel.b pixel.a

/-- The loop-local state of `Encoder::encode`: the encoder's `prev`
field (mutated each iteration) together with the local variables
`is_running`, `run_length` and the accumulated `ops` vector. -/
structure EncState where
  prev : Pixel
  is_running : Bool
  run_length : Nat
  ops : List QoiOp
deriving DecidableEq, Repr

/-- One iteration of the `for pixel in img` loop of `Encoder::encode`.
`self.prev = *pixel` happens first; then the run continuation / split,
the run flush on change, the run opening, and finally `chooseOp`.
`cache` is the encoder's cache, which this loop only reads, never
writes (faithful to the source, which contains no cache store). -/
def encodeStep (cache : List Pixel) (st : EncState) (pixel : Pixel) : EncState :=
  let prev := st.prev
  if st.is_running ∧ prev = pixel then
    if st.run_length ≥ 62 then
      ⟨pixel, true, st.run_length - 62 + 1, st.ops ++ [.Run 62]⟩
    else
      ⟨pixel, true, st.run_length + 1, st.ops⟩
  else
    let ops := if st.is_running ∧ st.run_length > 0 then st.ops ++ [.Run st.run_length] else st.ops
    if prev = pixel then
      ⟨pixel, true, 1, ops⟩
    else
      ⟨pixel, false, st.run_length, ops ++ [chooseOp cache prev pixel]⟩

/-- The operator-building loop of `Encoder::encode` over the whole
pixel slice, starting from `is_running = false`, `run_length = 0`,
empty `ops`. -/
def Encoder.encodeOps (e : Encoder) (img : List Pixel) : EncState :=
  img.foldl (encodeStep e.cache) ⟨e.prev, false, 0, []⟩

/-- Serialize a list of operators in order (the `for op in ops` loop);
`none` if any `append_bytes` assertion fails. -/
def serializeOps : List QoiOp → Option (List Nat)
  | [] => some []
  | op :: ops =>
    match op.append_bytes, serializeOps ops with
    | some bs, some rest => some (bs ++ rest)
    | _, _ => none

/-- The 8-byte QOI end-of-stream marker. -/
def footer : List Nat := [0, 0, 0, 0, 0, 0, 0, 1]

/-- Rust `Encoder::encode`: header, operator stream (with the final pending
run flushed), footer. Returns the updated encoder (`&mut self`: `prev`
has been overwritten by the loop; `cache` is untouched because the
source never stores into it) together with the bytes (`none` models an
`assert!` panic inside `append_bytes`). -/
def Encoder.encode (e : Encoder) (img : List Pixel) : Encoder × Option (List Nat) :=
  let st := e.encodeOps img
  let ops := if st.is_running then st.ops ++ [.Run st.run_length] else st.ops
  let e' : Encoder := ⟨e.width, e.height, e.channels, e.colorspace, e.cache, st.prev⟩
  (e', (serializeOps ops).map (fun body => e.append_header ++ body ++ footer))

/-- Rust `struct Decoder`: the decoder's predictor state. -/
structure Decoder where
  cache : List Pixel
  prev : Pixel
deriving DecidableEq, Repr

/-- Rust `Decoder::new`: cache all `(0,0,0,255)`, prev `(0,0,0,255)`. -/
def Decoder.new : Decoder :=
  ⟨List.replicate 64 initPixel, initPixel⟩

/-- The `match op` of `Decoder::decode`: from one parsed operator and
the current predictor state, the produced pixel and its repetition
count. `Index` uses the fallible `self.cache.get(idx)?`. -/
def decodeOp (s : Decoder) : QoiOp → Option (Pixel × Nat)
  | .RGB r g b => some (⟨r, g, b, s.prev.a⟩, 1)
  | .RGBA r g b a => some (⟨r, g, b, a⟩, 1)
  | .Index idx => (s.cache.get? idx).map (fun p => (p, 1))
  | .Diff dr dg db =>
      some (⟨wsub (wadd s.prev.r dr) 2, wsub (wadd s.prev.g dg) 2,
             wsub (wadd s.prev.b db) 2, s.prev.a⟩, 1)
  | .Luma dg dr_dg db_dg =>
      let dg2 := wsub dg 32
      let dr := wsub (wadd dr_dg dg2) 8
      let db := wsub (wadd db_dg dg2) 8
      some (⟨wadd s.prev.r dr, wadd s.prev.g dg2, wadd s.prev.b db, s.prev.a⟩, 1)
  | .Run len => some (s.prev, len)

/-- The `while pixels.len() < width*height` loop of `Decoder::decode`:
parse an operator, produce its pixel, set `prev` and the cache slot at
the pixel's hash, append `count` copies. `fuel` bounds the recursion;
every iteration consumes at least one input byte, so fuel equal to the
byte count (as supplied by `Decoder.decode`) is never exhausted. -/
def decodeLoop : Nat → Decoder → Nat → List Pixel → List Nat →
    Option (Decoder × List Pixel × List Nat)
  | fuel, s, need, acc, data =>
    if acc.length < need then
      match QoiOp.from_bytes data with
      | none => none
      | some (op, rest) =>
        match decodeOp s op with
        | none => none
        | some (pixel, count) =>
          match fuel with
          | 0 => none
          | fuel + 1 =>
            decodeLoop fuel ⟨s.cache.set pixel.hash pixel, pixel⟩ need
              (acc ++ List.replicate count pixel) rest
    else
      some (s, acc, data)

/-- The header phase of `Decoder::decode`: split off the 4 magic bytes
(`split_at_checked(4)`), compare them with `qoif`, read big-endian
width and height (`split_first_chunk::<4>` twice), then skip the
channels and colorspace bytes (`split_first` twice); return
`(width, height, remaining bytes)`. Any of those splits failing (input
shorter than 14 bytes) or a magic mismatch yields `none`, exactly as in
the source. -/
def decodeHeader : List Nat → Option (Nat × Nat × List Nat)
  | m0 :: m1 :: m2 :: m3 :: w0 :: w1 :: w2 :: w3 :: h0 :: h1 :: h2 :: h3 ::
      _channels :: _colorspace :: data =>
    if [m0, m1, m2, m3] = [0x71, 0x6F, 0x69, 0x66] then
      some (from_be32 [w0, w1, w2, w3], from_be32 [h0, h1, h2, h3], data)
    else none
  | _ => none

/-- Rust `Decoder::decode`: header, pixel loop, overflow check
(`pixels.len() > width*height`), footer check. The pixel target is
`(width * height) as usize` where the multiplication is 32-bit
(wrapping modulo 2^32 — release semantics of the `u32` product).
Returns the updated decoder together with the image. -/
def Decoder.decode (s : Decoder) (data : List Nat) : Option (Decoder × Image) :=
  match decodeHeader data with
  | none => none
  | some (width, height, body) =>
    let need := (width * height) % 4294967296
    match decodeLoop body.length s need [] body with
    | none => none
    | some (s', pixels, rest) =>
      if pixels.length > need then none
      else if rest = footer then some (s', ⟨width, height, pixels⟩)
      else none


/-! ## Helper lemmas -/

/-- The function `encodeStep` stores the consumed pixel into `prev` in every branch
(`self.prev = *pixel` runs before any other loop code). -/
theorem encodeStep_prev (cache : List Pixel) (st : EncState) (pixel : Pixel) :
    (encodeStep cache st pixel).prev = pixel := by
  simp only [encodeStep]
  split_ifs <;> rfl

/-- A successful `decodeLoop` emits at least `need` pixels: the loop
only returns through its exit branch, whose guard is
`¬(acc.length < need)`. -/
theorem decodeLoop_length (fuel : Nat) :
    ∀ (s : Decoder) (need : Nat) (acc : List Pixel) (data : List Nat)
      (s' : Decoder) (px : List Pixel) (rest : List Nat),
      decodeLoop fuel s need acc data = some (s', px, rest) → need ≤ px.length := by
  induction fuel with
  | zero =>
    intro s need acc data s' px rest h
    unfold decodeLoop at h
    split at h
    · split at h
      · exact absurd h (by simp)
      · split at h
        · exact absurd h (by simp)
        · exact absurd h (by simp)
    · rename_i hlt
      obtain ⟨rfl, rfl, rfl⟩ := by simpa using h
      omega
  | succ fuel ih =>
    intro s need acc data s' px rest h
    unfold decodeLoop at h
    split at h
    · split at h
      · exact absurd h (by simp)
      · split at h
        · exact absurd h (by simp)
        · exact ih _ _ _ _ _ _ _ h
    · rename_i hlt
      obtain ⟨rfl, rfl, rfl⟩ := by simpa using h
      omega


/-! ## Claim theorems -/

/-- Folding the encode loop over `n` copies of the current `prev`
tracks the run state: after `m` consumed pixels the pending run length
is `(m-1) % 62 + 1` and `(m-1) / 62` full `Run{62}` operators have been
flushed. -/
theorem run_fold (cache : List Pixel) (p : Pixel) (ops0 : List QoiOp) :
    ∀ n, 1 ≤ n →
    (List.replicate n p).foldl (encodeStep cache) ⟨p, false, 0, ops0⟩
      = ⟨p, true, (n - 1) % 62 + 1, ops0 ++ List.replicate ((n - 1) / 62) (.Run 62)⟩ := by
  intro n
  induction n with
  | zero => omega
  | succ m ih =>
    intro _
    match m, ih with
    | 0, _ =>
      simp [encodeStep]
    | k + 1, ih =>
      rw [List.replicate_succ', List.foldl_append, ih (by omega)]
      simp only [List.foldl_cons, List.foldl_nil]
      simp only [encodeStep, true_and, and_self, ite_true, Nat.add_sub_cancel]
      split_ifs with h1
      · have hk : k % 62 = 61 := by omega
        have h2 : (k + 1) % 62 = 0 := by omega
        have h3 : (k + 1) / 62 = k / 62 + 1 := by omega
        simp [EncState.mk.injEq, hk, h2, h3, List.replicate_succ', List.append_assoc]
      · have hk : k % 62 < 61 := by omega
        have h2 : (k + 1) % 62 = k % 62 + 1 := by omega
        have h3 : (k + 1) / 62 = k / 62 := by omega
        simp [EncState.mk.injEq, h2, h3]


set_option maxRecDepth 4000 in
/-- Claim C4. The encoder collapses consecutive pixels equal to `prev`
into `Run` operators, splitting at 62 and flushing the pending run at
end of stream: for `n ≥ 1` copies of the initial `prev`, the operator
stream is `(n-1)/62` copies of `Run{62}` followed by
`Run{(n-1) % 62 + 1}`; concretely, 100 identical pixels equal to the
initial `prev` encode their body as exactly `0xFD 0xE5`
(`Run{62}` then `Run{38}`). -/
theorem c4_run_split :
    (∀ w h n, 1 ≤ n →
      (let st := (Encoder.new w h).encodeOps (List.replicate n initPixel)
       if st.is_running then st.ops ++ [QoiOp.Run st.run_length] else st.ops)
        = List.replicate ((n - 1) / 62) (QoiOp.Run 62)
            ++ [QoiOp.Run ((n - 1) % 62 + 1)]) ∧
    ((Encoder.new 10 10).encode (List.replicate 100 initPixel)).2
      = some ([0x71, 0x6F, 0x69, 0x66, 0, 0, 0, 10, 0, 0, 0, 10, 4, 0]
               ++ [0xFD, 0xE5] ++ footer) := by
  constructor
  · intro w h n hn
    have hf := run_fold (List.replicate 64 initPixel) initPixel [] n hn
    simp only [Encoder.encodeOps, Encoder.new] at *
    rw [hf]
    simp
  · decide

/-- Claim C4 witness: the general run-split statement applied at
`w = 10`, `h = 10`, `n = 100` gives `[Run{62}, Run{38}]`. -/
theorem c4_run_split_witness :
    (let st := (Encoder.new 10 10).encodeOps (List.replicate 100 initPixel)
     if st.is_running then st.ops ++ [QoiOp.Run st.run_length] else st.ops)
      = [QoiOp.Run 62, QoiOp.Run 38] := by
  have h := c4_run_split.1 10 10 100 (by decide)
  exact h.trans (by decide)


/-- The Diff guard tested by `Encoder::encode` (lines 186-191 of the
source): alpha unchanged and each biased wrapping delta in `[0, 3]`. -/
def diffCondition (prev pixel : Pixel) : Prop :=
  wsub pixel.a prev.a = 0 ∧
  wadd (wsub pixel.r prev.r) 2 ≤ 3 ∧
  wadd (wsub pixel.g prev.g) 2 ≤ 3 ∧
  wadd (wsub pixel.b prev.b) 2 ≤ 3

instance (prev pixel : Pixel) : Decidable (diffCondition prev pixel) := by
  unfold diffCondition; infer_instance

/-- The Luma guard tested by `Encoder::encode` (lines 196-203 of the
source): alpha unchanged, biased green delta in `[0, 63]`, both biased
red/blue-relative deltas in `[0, 15]`. -/
def lumaCondition (prev pixel : Pixel) : Prop :=
  wsub pixel.a prev.a = 0 ∧
  wadd 32 (wsub pixel.g prev.g) < 64 ∧
  wsub (wadd 8 (wsub pixel.r prev.r)) (wsub pixel.g prev.g) < 16 ∧
  wsub (wadd 8 (wsub pixel.b prev.b)) (wsub pixel.g prev.g) < 16

instance (prev pixel : Pixel) : Decidable (lumaCondition prev pixel) := by
  unfold lumaCondition; infer_instance

/-- Claim C3. For a pixel different from `prev` (run rules do not
apply), the encoder selects the operator by strict priority — Index on
a cache hit, else Diff, else Luma, else RGB when alpha is unchanged,
else RGBA — and the encode loop, when no run is open, appends exactly
that operator. -/
theorem c3_operator_selection_priority :
    ∀ (cache : List Pixel) (prev pixel : Pixel), pixel ≠ prev →
      ((cache.getD pixel.hash initPixel = pixel →
        chooseOp cache prev pixel = .Index pixel.hash) ∧
      (cache.getD pixel.hash initPixel ≠ pixel →
        (diffCondition prev pixel →
          chooseOp cache prev pixel =
            .Diff (wadd (wsub pixel.r prev.r) 2) (wadd (wsub pixel.g prev.g) 2)
              (wadd (wsub pixel.b prev.b) 2)) ∧
        (¬ diffCondition prev pixel →
          (lumaCondition prev pixel →
            chooseOp cache prev pixel =
              .Luma (wadd 32 (wsub pixel.g prev.g))
                (wsub (wadd 8 (wsub pixel.r prev.r)) (wsub pixel.g prev.g))
                (wsub (wadd 8 (wsub pixel.b prev.b)) (wsub pixel.g prev.g))) ∧
          (¬ lumaCondition prev pixel →
            (wsub pixel.a prev.a = 0 →
              chooseOp cache prev pixel = .RGB pixel.r pixel.g pixel.b) ∧
            (wsub pixel.a prev.a ≠ 0 →
              chooseOp cache prev pixel = .RGBA pixel.r pixel.g pixel.b pixel.a)))) ∧
      (∀ st : EncState, st.prev = prev → st.is_running = false →
        encodeStep cache st pixel
          = ⟨pixel, false, st.run_length, st.ops ++ [chooseOp cache prev pixel]⟩)) := by
  intro cache prev pixel hne
  refine ⟨?_, ?_, ?_⟩
  · intro hc
    simp only [chooseOp]
    rw [if_pos hc]
  · intro hc
    refine ⟨?_, ?_⟩
    · intro hd
      have hd' := hd
      unfold diffCondition at hd'
      simp only [chooseOp]
      rw [if_neg hc, if_pos hd']
    · intro hd
      have hd' := hd
      unfold diffCondition at hd'
      refine ⟨?_, ?_⟩
      · intro hl
        have hl' := hl
        unfold lumaCondition at hl'
        simp only [chooseOp]
        rw [if_neg hc, if_neg hd', if_pos hl']
      · intro hl
        have hl' := hl
        unfold lumaCondition at hl'
        refine ⟨?_, ?_⟩
        · intro ha
          simp only [chooseOp]
          rw [if_neg hc, if_neg hd', if_neg hl', if_pos ha]
        · intro ha
          simp only [chooseOp]
          rw [if_neg hc, if_neg hd', if_neg hl', if_neg ha]
  · intro st h1 h2
    have hpp : st.prev ≠ pixel := by
      rw [h1]; exact fun he => hne he.symm
    simp [encodeStep, h1, h2, hpp]
    exact fun he => hne he.symm

/-- Claim C3 witness: for `prev = (0,0,0,255)` and `pixel = (3,4,5,255)`
with the all-initial cache, the priority chain selects
`Luma{36, 7, 9}`. -/
theorem c3_operator_selection_priority_witness :
    chooseOp (List.replicate 64 initPixel) initPixel ⟨3, 4, 5, 255⟩ = .Luma 36 7 9 := by
  have h := c3_operator_selection_priority (List.replicate 64 initPixel) initPixel
    ⟨3, 4, 5, 255⟩ (by decide)
  have h2 := ((h.2.1 (by decide)).2 (by decide)).1 (by decide)
  exact h2.trans (by decide)


/-- Claim C6 (amended). For every byte slice, a successful decode
returns an Image whose pixel count is exactly the wrapping 32-bit
product of the header dimensions, `width * height mod 2^32` (the
embedding is total, so no panic and no out-of-range access occur, and
on failure no partial image is returned). -/
theorem c6_decode_pixel_count :
    ∀ (s : Decoder) (data : List Nat) (s' : Decoder) (img : Image),
      Decoder.decode s data = some (s', img) →
      img.pixels.length = img.width * img.height % 4294967296 := by
  intro s data s' img h
  unfold Decoder.decode at h
  cases hh : decodeHeader data with
  | none => rw [hh] at h; simp at h
  | some whb =>
    obtain ⟨w, ht, body⟩ := whb
    rw [hh] at h
    simp only at h
    cases hl : decodeLoop body.length s (w * ht % 4294967296) [] body with
    | none => rw [hl] at h; simp at h
    | some spr =>
      obtain ⟨s2, px, rest⟩ := spr
      rw [hl] at h
      simp only at h
      have hge := decodeLoop_length body.length s (w * ht % 4294967296) [] body s2 px rest hl
      split_ifs at h with h1 h2
      have hlen : px.length = w * ht % 4294967296 :=
        Nat.le_antisymm (Nat.not_lt.mp h1) hge
      obtain ⟨h3, h4⟩ := h
      simpa using hlen

/-- Claim C6 witness: the amended statement applied to the concrete
stream with width 1, height 0 and an empty operator body. -/
theorem c6_decode_pixel_count_witness :
    Decoder.new.decode ([0x71, 0x6F, 0x69, 0x66, 0, 0, 0, 1, 0, 0, 0, 0, 4, 0] ++ footer)
      = some (Decoder.new, ⟨1, 0, []⟩) ∧
    (([] : List Pixel)).length = 1 * 0 % 4294967296 := by
  refine ⟨by decide, ?_⟩
  have h := c6_decode_pixel_count Decoder.new
    ([0x71, 0x6F, 0x69, 0x66, 0, 0, 0, 1, 0, 0, 0, 0, 4, 0] ++ footer)
    Decoder.new ⟨1, 0, []⟩ (by decide)
  exact h

/-- Claim C7. Decode succeeds only when the bytes remaining after the
pixel loop are exactly the 8-byte footer `00 00 00 00 00 00 00 01`:
whenever the loop leaves any other residue the decode fails, and in
particular a valid empty-image stream with the last footer byte removed
fails to decode. -/
theorem c7_footer_required :
    (∀ (s : Decoder) (data : List Nat) (w h : Nat) (body : List Nat)
        (s' : Decoder) (px : List Pixel) (rest : List Nat),
      decodeHeader data = some (w, h, body) →
      decodeLoop body.length s (w * h % 4294967296) [] body = some (s', px, rest) →
      rest ≠ footer →
      Decoder.decode s data = none) ∧
    Decoder.new.decode ([0x71, 0x6F, 0x69, 0x66, 0, 0, 0, 0, 0, 0, 0, 0, 4, 0]
        ++ footer.dropLast) = none := by
  constructor
  · intro s data w h body s' px rest hh hl hrest
    unfold Decoder.decode
    rw [hh]
    simp only
    rw [hl]
    simp only
    by_cases hc : px.length > w * h % 4294967296
    · rw [if_pos hc]
    · rw [if_neg hc, if_neg hrest]
  · decide

/-- Claim C7 witness: the footer requirement applied to a concrete
stream whose residue after the (empty) pixel loop is `[7, 7, 7]`. -/
theorem c7_footer_required_witness :
    Decoder.new.decode [0x71, 0x6F, 0x69, 0x66, 0, 0, 0, 0, 0, 0, 0, 0, 4, 0, 7, 7, 7]
      = none := by
  exact c7_footer_required.1 Decoder.new
    [0x71, 0x6F, 0x69, 0x66, 0, 0, 0, 0, 0, 0, 0, 0, 4, 0, 7, 7, 7]
    0 0 [7, 7, 7] Decoder.new [] [7, 7, 7] (by decide) (by decide) (by decide)


/-- Claim C1. The round-trip `decode (encode I) = I` fails on the code:
for the 2x1 image `[(3,4,5,255), (0,0,0,255)]` the encoder (whose cache
is never written, so every slot still holds `(0,0,0,255)`) emits
`Index{53}` for the second pixel, while the decoder's cache slot 53
holds `(3,4,5,255)` at that point; the decode therefore succeeds but
returns `[(3,4,5,255), (3,4,5,255)]`, not the original pixels. -/
theorem c1_roundtrip_fails_on_cached_index :
    ((Encoder.new 2 1).encode [⟨3, 4, 5, 255⟩, ⟨0, 0, 0, 255⟩]).2.bind
        (fun bs => (Decoder.new.decode bs).map (fun r => r.2.pixels))
      = some [⟨3, 4, 5, 255⟩, ⟨3, 4, 5, 255⟩] ∧
    ([(⟨3, 4, 5, 255⟩ : Pixel), ⟨3, 4, 5, 255⟩] : List Pixel)
      ≠ [⟨3, 4, 5, 255⟩, ⟨0, 0, 0, 255⟩] := by
  constructor
  · decide
  · decide

/-- Claim C2. The encoder never writes its cache: after encoding the
single pixel `(3,4,5,255)` (hash 53, emitted as a Luma operator with
bytes `[164, 121]`), the encoder's cache is unchanged — slot 53 still
holds `(0,0,0,255)` — while the decoder, after consuming the same
operator, has set its slot 53 to `(3,4,5,255)`. The encoder/decoder
predictor caches are therefore not equal after this operator, contrary
to the claim. -/
theorem c2_encoder_cache_never_updated :
    ((Encoder.new 1 1).encode [⟨3, 4, 5, 255⟩]).2
      = some ((Encoder.new 1 1).append_header ++ [164, 121] ++ footer) ∧
    (((Encoder.new 1 1).encode [⟨3, 4, 5, 255⟩]).1).cache = (Encoder.new 1 1).cache ∧
    (((Encoder.new 1 1).encode [⟨3, 4, 5, 255⟩]).1).cache.get? (Pixel.hash ⟨3, 4, 5, 255⟩)
      = some initPixel ∧
    (decodeLoop 2 Decoder.new 1 [] [164, 121]).map
        (fun r => r.1.cache.get? (Pixel.hash ⟨3, 4, 5, 255⟩))
      = some (some ⟨3, 4, 5, 255⟩) ∧
    (⟨3, 4, 5, 255⟩ : Pixel) ≠ initPixel := by
  refine ⟨by decide, by decide, by decide, by decide, by decide⟩

/-- Claim C5. The serializer rejects an operator that is in range for
the data model: `Index{63}` (the spec allows `i ∈ [0, 63]`, and the
parser itself produces `Index{63}` from the byte `0x3F`), because
`append_bytes` asserts `idx <= 62`. The `none` on the left models the
failing `assert!`. -/
theorem c5_serializer_rejects_index63 :
    (QoiOp.Index 63).append_bytes = none ∧
    QoiOp.from_bytes [63] = some (QoiOp.Index 63, []) ∧
    (63 : Nat) ≤ 63 := by
  refine ⟨by decide, by decide, by decide⟩

/-- Claim C6 counterexample. A header with width = height = 65536 makes
the pixel target `(width * height) as usize` wrap to 0 (32-bit
multiplication), so decoding succeeds with an empty pixel vector even
though `width * height = 2^32 ≠ 0`: the returned Image does not contain
`width * height` pixels. -/
theorem c6_pixel_count_overflow_counterexample :
    Decoder.new.decode
        ([0x71, 0x6F, 0x69, 0x66, 0, 1, 0, 0, 0, 1, 0, 0, 4, 0] ++ footer)
      = some (Decoder.new, ⟨65536, 65536, []⟩) ∧
    (65536 * 65536 : Nat) ≠ 0 := by
  refine ⟨by decide, by decide⟩

/-- Claim C8 counterexample. `Encoder::encode` does not reset the
predictor state: after encoding `[(1,2,3,255)]` the encoder's `prev` is
`(1,2,3,255)` (not the initial `(0,0,0,255)`), and encoding the same
slice again on the same encoder emits a `Run` instead of a `Luma`,
producing a different byte stream. -/
theorem c8_reencode_differs_counterexample :
    (((Encoder.new 1 1).encode [⟨1, 2, 3, 255⟩]).1).prev = ⟨1, 2, 3, 255⟩ ∧
    (⟨1, 2, 3, 255⟩ : Pixel) ≠ initPixel ∧
    ((Encoder.new 1 1).encode [⟨1, 2, 3, 255⟩]).2
      ≠ ((((Encoder.new 1 1).encode [⟨1, 2, 3, 255⟩]).1).encode [⟨1, 2, 3, 255⟩]).2 := by
  refine ⟨by decide, by decide, by decide⟩



/-- Claim C9. Every `Index` operator produced by the parser carries an
index below 64 (the low 6 bits of the tag byte), and the decoder's
cache lookup (`cache.get(idx)`, the `BadIndex` path) therefore always
succeeds on a 64-entry cache for a parsed operator. -/
theorem c9_parsed_index_in_range :
    ∀ (buf : List Nat) (op : QoiOp) (rest : List Nat) (idx : Nat),
      QoiOp.from_bytes buf = some (op, rest) → op = QoiOp.Index idx →
      idx < 64 ∧ ∀ s : Decoder, s.cache.length = 64 → (decodeOp s op).isSome := by
  intro buf op rest idx hp hop
  subst hop
  have hidx : idx < 64 := by
    cases buf with
    | nil => simp [QoiOp.from_bytes] at hp
    | cons head tail =>
      have hle : head &&& 63 ≤ 63 := Nat.and_le_right
      simp only [QoiOp.from_bytes] at hp
      split_ifs at hp with h1 h2 h3 h4 h5 h6
      · split at hp <;> simp_all
      · split at hp <;> simp_all
      · obtain ⟨heq, -⟩ := by simpa using hp
        omega
      · simp at hp
      · split at hp <;> simp_all
      · simp at hp
  refine ⟨hidx, ?_⟩
  intro s hs
  cases hg : s.cache.get? idx with
  | none =>
    have := List.get?_eq_none.mp hg
    omega
  | some p =>
    rw [List.get?_eq_getElem?] at hg
    simp [decodeOp, hg]

/-- Claim C9 witness: the byte `0x05` parses to `Index{5}`, whose index
is below 64 and whose cache lookup succeeds on the fresh decoder. -/
theorem c9_parsed_index_in_range_witness :
    (5 : Nat) < 64 ∧ (decodeOp Decoder.new (QoiOp.Index 5)).isSome := by
  have h := c9_parsed_index_in_range [5] (QoiOp.Index 5) [] 5 (by decide) rfl
  exact ⟨h.1, h.2 Decoder.new (by decide)⟩

/-- The function `from_be32` inverts `be32` on values below `2^32`. -/
theorem from_be32_be32 (w : Nat) (hw : w < 4294967296) :
    from_be32 (be32 w) = w := by
  simp only [be32, from_be32]
  omega

/-- Claim C10. Encoding an empty pixel sequence yields exactly the
14-byte header (magic, big-endian width and height, channels 4,
colorspace 0) followed by the 8-byte footer — 22 bytes, no operator
bytes — and decoding such a stream succeeds with an empty pixel vector
whenever the header dimensions satisfy `width * height = 0`. -/
theorem c10_empty_image :
    (∀ w h : Nat,
      (Encoder.new w h).encode []
        = (Encoder.new w h,
           some ([0x71, 0x6F, 0x69, 0x66] ++ be32 w ++ be32 h ++ [4, 0] ++ footer)) ∧
      ([0x71, 0x6F, 0x69, 0x66] ++ be32 w ++ be32 h ++ [4, 0] ++ footer).length = 22) ∧
    (∀ w h : Nat, w < 4294967296 → h < 4294967296 → w * h = 0 →
      Decoder.new.decode ([0x71, 0x6F, 0x69, 0x66] ++ be32 w ++ be32 h ++ [4, 0] ++ footer)
        = some (Decoder.new, ⟨w, h, []⟩)) := by
  constructor
  · intro w h
    constructor
    · simp [Encoder.encode, Encoder.encodeOps, serializeOps, Encoder.append_header,
        Encoder.new, footer]
    · simp [be32, footer]
  · intro w h hw hh hwh
    unfold Decoder.decode
    simp only [be32, footer, List.cons_append, List.nil_append, List.append_assoc]
    simp only [decodeHeader]
    simp only [if_true]
    have hw32 : from_be32 [w / 16777216 % 256, w / 65536 % 256, w / 256 % 256, w % 256] = w := by
      simpa [be32] using from_be32_be32 w hw
    have hh32 : from_be32 [h / 16777216 % 256, h / 65536 % 256, h / 256 % 256, h % 256] = h := by
      simpa [be32] using from_be32_be32 h hh
    rw [hw32, hh32]
    simp only [hwh]
    simp [decodeLoop, footer]

/-- Claim C10 witness: the statement applied at width 3, height 0. -/
theorem c10_empty_image_witness :
    (Encoder.new 3 0).encode []
      = (Encoder.new 3 0,
         some ([0x71, 0x6F, 0x69, 0x66] ++ be32 3 ++ be32 0 ++ [4, 0] ++ footer)) ∧
    Decoder.new.decode ([0x71, 0x6F, 0x69, 0x66] ++ be32 3 ++ be32 0 ++ [4, 0] ++ footer)
      = some (Decoder.new, ⟨3, 0, []⟩) := by
  exact ⟨(c10_empty_image.1 3 0).1,
         c10_empty_image.2 3 0 (by decide) (by decide) (by decide)⟩

/-- Claim C8 (amended). Predictor state is initialized by
`Encoder::new` / `Decoder::new` — prev `(0,0,0,255)` and all 64 cache
entries `(0,0,0,255)` — but `encode` does not reset it: the encoder's
`prev` after an encode call is the last pixel of the input, and it
carries into any later call on the same value. -/
theorem c8_state_from_constructor :
    (∀ w h : Nat, (Encoder.new w h).prev = initPixel ∧
        (Encoder.new w h).cache = List.replicate 64 initPixel) ∧
    (Decoder.new.prev = initPixel ∧ Decoder.new.cache = List.replicate 64 initPixel) ∧
    (∀ (e : Encoder) (px : List Pixel) (p : Pixel),
        ((e.encode (px ++ [p])).1).prev = p) := by
  refine ⟨fun w h => ⟨rfl, rfl⟩, ⟨rfl, rfl⟩, ?_⟩
  intro e px p
  simp only [Encoder.encode, Encoder.encodeOps, List.foldl_append, List.foldl_cons,
    List.foldl_nil]
  exact encodeStep_prev _ _ _

/-- Claim C8 amended-statement witness: after encoding `[(9,8,7,6)]` on
a fresh encoder, `prev` is `(9,8,7,6)`. -/
theorem c8_state_from_constructor_witness :
    (((Encoder.new 5 5).encode ([] ++ [⟨9, 8, 7, 6⟩])).1).prev = ⟨9, 8, 7, 6⟩ := by
  exact c8_state_from_constructor.2.2 (Encoder.new 5 5) [] ⟨9, 8, 7, 6⟩

end Qoi
